import Mathlib

/-!
A shallow embedding of `main.go` of slack-exporter.

The program pages through a channel's history, keeps the top-level messages,
sorts them by timestamp and prints every thread with its replies.

The embedding has three layers, one per function boundary of the source:

* `doRequestWithRetry` runs against a script of outcomes of
  `http.DefaultClient.Do`;
* `fetchTopLevelMessages` and `fetchThreadReplies` run against a script of
  page outcomes, one element standing for one pass through "build the
  request, `doRequestWithRetry`, read the body, `json.Unmarshal`";
* the driver loop of `main` runs against any state-passing implementation
  of `fetchThreadReplies`.

Go strings are Lean `String`s, Go `int` is `Int` (64-bit wrap-around is
written out where the source multiplies).  A loop that the source writes as
`for { ... }` is a structural recursion over its script; a script that ends
before the loop has returned yields `Returned.waiting`.
-/

namespace SlackExporter

/-! ## Data model (`main.go` lines 17-33) -/

/-- The `baseThreadURL` format constant. -/
def baseThreadURL : String := "https://slack.com/archives/%s/p%s"

/-- The Go struct `Message`. -/
structure Message where
  Ts : String
  Text : String
  ThreadTs : String
deriving DecidableEq, Repr

/-- The anonymous struct behind `HistoryResponse.ResponseMetadata`. -/
structure ResponseMetadata where
  NextCursor : String
deriving DecidableEq, Repr

/-- The Go struct `HistoryResponse`. -/
structure HistoryResponse where
  Messages : List Message
  HasMore : Bool
  ResponseMetadata : ResponseMetadata
deriving DecidableEq, Repr

/-- What a call of a Go function of type `(T, error)` did on a finite script:
`ok v` is `return v, nil`, `err e` is `return nil, e`, and `waiting` says the
script ended while the function was still looping. -/
inductive Returned (α : Type) where
  | ok (v : α)
  | err (e : String)
  | waiting
deriving DecidableEq, Repr

/-- A request built by one of the collectors: the endpoint, the query values
in the order they are set, and the `Authorization` header. -/
structure Request where
  endpoint : String
  values : List (String × String)
  authorization : String
deriving DecidableEq, Repr

/-- The outcome of one page fetch inside a collector (lines 91-101 and
136-146): either an error from `doRequestWithRetry` or `json.Unmarshal`, or
the decoded page. -/
inductive PageOutcome where
  | page (res : HistoryResponse)
  | failure (err : String)
deriving DecidableEq, Repr

/-- The observable run of a collector over a script of page outcomes. -/
structure FetchRun where
  requests : List Request
  sleeps : List Int
  result : Returned (List Message)
  rest : List PageOutcome
deriving DecidableEq, Repr

/-! ## Top-level collector (`main.go` lines 71-118) -/

/-- The condition of line 104: the message is kept by the top-level
collector. -/
def keepTopLevel (msg : Message) : Bool :=
  msg.ThreadTs == "" || msg.ThreadTs == msg.Ts

/-- Lines 103-107: the inner `for _, msg := range res.Messages` loop. -/
def appendTopLevel (messages : List Message) (page : List Message) : List Message :=
  page.foldl (fun acc msg => if keepTopLevel msg then acc ++ [msg] else acc) messages

/-- Lines 81-89: the history request for the current cursor. -/
def historyRequest (token channel cursor : String) : Request :=
  { endpoint := "https://slack.com/api/conversations.history?"
    values := [("channel", channel), ("limit", "100")] ++
      (if cursor != "" then [("cursor", cursor)] else [])
    authorization := "Bearer " ++ token }

/-- The stop test of lines 109 and 150. -/
def lastPage (res : HistoryResponse) : Bool :=
  !res.HasMore || res.ResponseMetadata.NextCursor == ""

/-- The `for` loop of `fetchTopLevelMessages` (lines 76-115), from the loop
state `messages`, `cursor`, `pagesFetched`. -/
def fetchTopLevelLoop (token channel : String) (fetchPages : Int) :
    List PageOutcome → List Message → String → Int → FetchRun
  | [], messages, _, pagesFetched =>
    if fetchPages > 0 ∧ pagesFetched ≥ fetchPages then
      { requests := [], sleeps := [], result := .ok messages, rest := [] }
    else
      { requests := [], sleeps := [], result := .waiting, rest := [] }
  | outcome :: rest, messages, cursor, pagesFetched =>
    if fetchPages > 0 ∧ pagesFetched ≥ fetchPages then
      { requests := [], sleeps := [], result := .ok messages, rest := outcome :: rest }
    else
      let req := historyRequest token channel cursor
      match outcome with
      | .failure err =>
        { requests := [req], sleeps := [], result := .err err, rest := rest }
      | .page res =>
        let messages := appendTopLevel messages res.Messages
        if lastPage res then
          { requests := [req], sleeps := [], result := .ok messages, rest := rest }
        else
          let run := fetchTopLevelLoop token channel fetchPages rest messages
            res.ResponseMetadata.NextCursor (pagesFetched + 1)
          { run with requests := req :: run.requests }

/-- The function `fetchTopLevelMessages` (lines 71-118). -/
def fetchTopLevelMessages (token channel : String) (fetchPages : Int)
    (script : List PageOutcome) : FetchRun :=
  fetchTopLevelLoop token channel fetchPages script [] "" 0

/-! ## Thread reply collector (`main.go` lines 120-159) -/

/-- Lines 125-134: the replies request for the current cursor. -/
def repliesRequest (token channel threadTs cursor : String) : Request :=
  { endpoint := "https://slack.com/api/conversations.replies?"
    values := [("channel", channel), ("ts", threadTs), ("limit", "100")] ++
      (if cursor != "" then [("cursor", cursor)] else [])
    authorization := "Bearer " ++ token }

/-- One second as a `time.Duration`, in nanoseconds. -/
def timeSecond : Int := 1000000000

/-- Conversion to Go's `int64`: two's complement wrap-around. -/
def wrapInt64 (x : Int) : Int :=
  (x + 9223372036854775808) % 18446744073709551616 - 9223372036854775808

/-- The expression `time.Duration(n) * time.Second`. -/
def secondsDuration (n : Int) : Int :=
  wrapInt64 (n * timeSecond)

/-- The `for` loop of `fetchThreadReplies` (lines 124-156), from the loop
state `replies`, `cursor`. -/
def fetchThreadRepliesLoop (token channel threadTs : String) :
    List PageOutcome → List Message → String → FetchRun
  | [], _, _ =>
    { requests := [], sleeps := [], result := .waiting, rest := [] }
  | outcome :: rest, replies, cursor =>
    let req := repliesRequest token channel threadTs cursor
    match outcome with
    | .failure err =>
      { requests := [req], sleeps := [], result := .err err, rest := rest }
    | .page res =>
      let replies := replies ++ res.Messages
      if lastPage res then
        { requests := [req], sleeps := [], result := .ok replies, rest := rest }
      else
        let run := fetchThreadRepliesLoop token channel threadTs rest replies
          res.ResponseMetadata.NextCursor
        { run with requests := req :: run.requests
                   sleeps := secondsDuration 1 :: run.sleeps }

/-- The function `fetchThreadReplies` (lines 120-159). -/
def fetchThreadReplies (token channel threadTs : String)
    (script : List PageOutcome) : FetchRun :=
  fetchThreadRepliesLoop token channel threadTs script [] ""

/-! ## Library functions used by the source -/

/-- The value of a decimal digit, as the digit loop of `strconv` reads it. -/
def digitValue (c : Char) : Option Nat :=
  if 48 ≤ c.toNat ∧ c.toNat ≤ 57 then some (c.toNat - 48) else none

/-- The digit loop of `strconv.ParseUint` in base 10 at 64 bits, from the
value `n` read so far: `none` is the syntax error of a character that is
not a digit; at the first digit that overflows the loop stops with the
range error and the value `1<<64 - 1`, whatever follows. -/
def parseDigits : List Char → Nat → Option Nat
  | [], n => some n
  | c :: cs, n =>
    match digitValue c with
    | none => none
    | some d =>
      if n ≥ 1844674407370955162 then some 18446744073709551615
      else if n * 10 + d > 18446744073709551615 then some 18446744073709551615
      else parseDigits cs (n * 10 + d)

/-- The value `strconv.Atoi` returns on a 64-bit platform, its error
dropped as in line 61: an optional sign, then one or more decimal digits;
a syntax error gives 0 and a value out of range gives the nearest `int64`. -/
def Atoi (s : String) : Int :=
  match s.data with
  | [] => 0
  | c :: cs =>
    let neg := c = '-'
    let digits := if c = '+' ∨ c = '-' then cs else c :: cs
    if digits = [] then 0
    else
      match parseDigits digits 0 with
      | none => 0
      | some un =>
        if ¬ neg ∧ un ≥ 9223372036854775808 then 9223372036854775807
        else if neg ∧ un > 9223372036854775808 then -9223372036854775808
        else if neg then -(un : Int)
        else (un : Int)

/-- The formatting of `fmt.Sprintf` for the verbs the source uses (`%s`,
`%d`, `%v`), over arguments already rendered as text. -/
def sprintfChars : List Char → List String → List Char
  | [], _ => []
  | [c], _ => [c]
  | c :: v :: rest, args =>
    if c = '%' ∧ (v = 's' ∨ v = 'd' ∨ v = 'v') then
      match args with
      | a :: args => a.data ++ sprintfChars rest args
      | [] => '%' :: '!' :: v :: "(MISSING)".data ++ sprintfChars rest []
    else c :: sprintfChars (v :: rest) args

/-- The function `fmt.Sprintf`, see `sprintfChars`. -/
def Sprintf (format : String) (args : List String) : String :=
  ⟨sprintfChars format.data args⟩

/-- The scan of `strings.Replace` for a non-empty `old`: leftmost
non-overlapping matches; the counter is the number of characters of the
current match still to skip. -/
def replaceFrom (old new : List Char) : Nat → List Char → List Char
  | _, [] => []
  | skip + 1, _ :: cs => replaceFrom old new skip cs
  | 0, c :: cs =>
    if old.isPrefixOf (c :: cs) then new ++ replaceFrom old new (old.length - 1) cs
    else c :: replaceFrom old new 0 cs

/-- The function `strings.ReplaceAll`, for a non-empty `old`. -/
def ReplaceAll (s old new : String) : String :=
  ⟨replaceFrom old.data new.data 0 s.data⟩

/-- Go's `<` on strings: lexicographic on the encoded text, which for
well-formed text is lexicographic on the code points. -/
def charsLess : List Char → List Char → Bool
  | [], [] => false
  | [], _ :: _ => true
  | _ :: _, [] => false
  | a :: as, b :: bs =>
    if a.toNat < b.toNat then true
    else if b.toNat < a.toNat then false
    else charsLess as bs

/-- Go's `s < t` on strings. -/
def stringLess (s t : String) : Bool :=
  charsLess s.data t.data

/-- Insertion of one element into a slice that is in order for `less`. -/
def insertSlice {α : Type} (less : α → α → Bool) (x : α) : List α → List α
  | [] => [x]
  | y :: ys => if less x y then x :: y :: ys else y :: insertSlice less x ys

/-- The function `sort.Slice`, as an insertion sort driven by the caller's
`less`.  The library promises a permutation in order for `less` and leaves
the order of equal elements open. -/
def sortSlice {α : Type} (less : α → α → Bool) : List α → List α
  | [] => []
  | x :: xs => insertSlice less x (sortSlice less xs)

/-! ## Retry loop (`main.go` lines 52-69) -/

/-- What the retry loop reads of an `http.Response`: the status code, the
value of `Header.Get("Retry-After")` (empty when absent) and the body. -/
structure Response where
  StatusCode : Int
  RetryAfter : String
  Body : String
deriving DecidableEq, Repr

/-- One outcome of `http.DefaultClient.Do(req)`. -/
inductive ClientOutcome where
  | response (resp : Response)
  | failure (err : String)
deriving DecidableEq, Repr

/-- The effects of the retry loop, in program order. -/
inductive Event where
  | request
  | print (text : String)
  | sleep (duration : Int)
deriving DecidableEq, Repr

/-- The observable run of `doRequestWithRetry` over a script of client
outcomes. -/
structure RetryRun where
  events : List Event
  result : Returned Response
  rest : List ClientOutcome
deriving DecidableEq, Repr

/-- The function `doRequestWithRetry` (lines 52-69). -/
def doRequestWithRetry : List ClientOutcome → RetryRun
  | [] => { events := [], result := .waiting, rest := [] }
  | .failure err :: rest => { events := [.request], result := .err err, rest := rest }
  | .response resp :: rest =>
    if resp.StatusCode = 429 then
      let retryAfter := resp.RetryAfter
      let waitSec := Atoi retryAfter
      let run := doRequestWithRetry rest
      let text := Sprintf "Rate limited. Waiting %d seconds...\n" [toString waitSec]
      { run with events :=
          Event.request :: Event.print text :: Event.sleep (secondsDuration waitSec) ::
            run.events }
    else
      { events := [.request], result := .ok resp, rest := rest }

/-- Lines 91-101 and 136-146: how one page outcome of a collector comes
out of a run of `doRequestWithRetry`, with `json.Unmarshal` into a
`HistoryResponse` as the parameter `unmarshal`; there is none while the retry
loop has not returned. -/
def fetchPage (unmarshal : String → Except String HistoryResponse) (run : RetryRun) :
    Option PageOutcome :=
  match run.result with
  | .waiting => none
  | .err err => some (.failure err)
  | .ok resp =>
    let body := resp.Body
    match unmarshal body with
    | .error err => some (.failure err)
    | .ok res => some (.page res)

/-! ## Driver (`main.go` lines 35-50 and 161-196) -/

/-- The function `formatSlackTs` (lines 161-163). -/
def formatSlackTs (ts : String) : String :=
  ReplaceAll ts "." ""

/-- The function `getEnv` (lines 35-42): the value, or the text printed
before `os.Exit(1)`. -/
def getEnv (environ : String → String) (name : String) : Except String String :=
  let env := environ name
  if env == "" then .error (Sprintf "%s is not set." [name] ++ "\n") else .ok env

/-- The function `getSlackToken` (lines 44-46). -/
def getSlackToken (environ : String → String) : Except String String :=
  getEnv environ "SLACK_BOT_TOKEN"

/-- The function `getChannelID` (lines 48-50). -/
def getChannelID (environ : String → String) : Except String String :=
  getEnv environ "SLACK_CHANNEL_ID"

/-- The observable run of the driver: what it wrote to standard output, the
messages whose thread it fetched, in order, the exit status and the final
state of the world. -/
structure MainRun (σ : Type) where
  stdout : String
  processed : List Message
  exitCode : Nat
  world : σ

/-- A collector as the driver sees it: a call on the current world returns
messages or an error, and the next world. -/
abbrev Collector (σ : Type) := σ → Except String (List Message) × σ

/-- Lines 189-194: the block printed for one thread. -/
def printThread (channelID : String) (msg : Message) (replies : List Message)
    (stdout : String) : String :=
  let stdout := stdout ++ "# Thread" ++ "\n"
  let stdout := stdout ++ Sprintf (baseThreadURL ++ "\n") [channelID, formatSlackTs msg.Ts]
  replies.foldl (fun out r => out ++ "## Message" ++ "\n" ++ r.Text ++ "\n") stdout

/-- Lines 182-195: the loop over the sorted messages. -/
def threadLoop {σ : Type} (fetchThreadReplies : String → String → String → Collector σ)
    (slackToken channelID : String) : List Message → σ → String → MainRun σ
  | [], world, stdout =>
    { stdout := stdout, processed := [], exitCode := 0, world := world }
  | msg :: rest, world, stdout =>
    match fetchThreadReplies slackToken channelID msg.Ts world with
    | (.error err, world) =>
      let stdout := stdout ++ Sprintf "Error fetching thread %s: %v\n" [msg.Ts, err]
      let run := threadLoop fetchThreadReplies slackToken channelID rest world stdout
      { run with processed := msg :: run.processed }
    | (.ok replies, world) =>
      let stdout := printThread channelID msg replies stdout
      let run := threadLoop fetchThreadReplies slackToken channelID rest world stdout
      { run with processed := msg :: run.processed }

/-- Lines 172-195: `main` once the flag and the environment are read. -/
def mainBody {σ : Type} (fetchTopLevelMessages : String → String → Int → Collector σ)
    (fetchThreadReplies : String → String → String → Collector σ)
    (fetchLimit : Int) (slackToken channelID : String) (world : σ) : MainRun σ :=
  match fetchTopLevelMessages slackToken channelID fetchLimit world with
  | (.error err, world) =>
    { stdout := "Error fetching top-level messages: " ++ err ++ "\n"
      processed := [], exitCode := 1, world := world }
  | (.ok messages, world) =>
    let messages := sortSlice (fun a b => stringLess a.Ts b.Ts) messages
    threadLoop fetchThreadReplies slackToken channelID messages world ""

/-- The default of the `fetch-limit` flag (line 166). -/
def defaultFetchLimit : Int := 1

/-- The function `main` (lines 165-196): `flag` is the value given on the
command line, if any, and `environ` the process environment. -/
def main {σ : Type} (fetchTopLevelMessages : String → String → Int → Collector σ)
    (fetchThreadReplies : String → String → String → Collector σ)
    (flag : Option Int) (environ : String → String) (world : σ) : MainRun σ :=
  let fetchLimit := flag.getD defaultFetchLimit
  match getSlackToken environ with
  | .error text => { stdout := text, processed := [], exitCode := 1, world := world }
  | .ok slackToken =>
    match getChannelID environ with
    | .error text => { stdout := text, processed := [], exitCode := 1, world := world }
    | .ok channelID =>
      mainBody fetchTopLevelMessages fetchThreadReplies fetchLimit slackToken channelID world

/-- A world for the driver in which the successive calls of
`fetchThreadReplies` return the successive outcomes of a script; a call made
once the script is used up fails. -/
def scriptedReplies : String → String → String → Collector (List (Except String (List Message)))
  | _, _, _, [] => (.error "no scripted outcome", [])
  | _, _, _, outcome :: rest => (outcome, rest)


/-! ## Terms of the specification and sample data -/

/-- The spec's reading of "top-level": the thread-root field is empty or
equal to the message's own timestamp. -/
def isTopLevel (m : Message) : Prop :=
  m.ThreadTs = "" ∨ m.ThreadTs = m.Ts

instance : DecidablePred isTopLevel := fun m =>
  inferInstanceAs (Decidable (m.ThreadTs = "" ∨ m.ThreadTs = m.Ts))

/-- The top-level messages of a list of pages, in page order. -/
def topLevelOf (pages : List HistoryResponse) : List Message :=
  (pages.flatMap (·.Messages)).filter (fun m => decide (isTopLevel m))

/-- The pages of a sequence up to and including the first one whose
`has_more` is false or whose `next_cursor` is empty; all of them when there
is none. -/
def throughFirstStop : List HistoryResponse → List HistoryResponse
  | [] => []
  | p :: ps =>
    if p.HasMore = false ∨ p.ResponseMetadata.NextCursor = "" then [p]
    else p :: throughFirstStop ps

/-- The pages left to fetch by a collector that has `fetched` pages behind it
and a page cap `cap` (0 or less: no cap): those through the first stopping
page, and no more than the cap leaves. -/
def pagesToFetchFrom (cap fetched : Int) (pages : List HistoryResponse) :
    List HistoryResponse :=
  if 0 < cap then (throughFirstStop pages).take (cap - fetched).toNat
  else throughFirstStop pages

/-- The pages the top-level collector is to fetch of a sequence of pages,
under a page cap. -/
def pagesToFetch (cap : Int) (pages : List HistoryResponse) : List HistoryResponse :=
  pagesToFetchFrom cap 0 pages

/-- A thread root: its thread timestamp is its own timestamp. -/
def sampleRoot : Message :=
  { Ts := "1690000000.000100", Text := "root", ThreadTs := "1690000000.000100" }

/-- A message outside any thread. -/
def samplePlain : Message :=
  { Ts := "1690000000.000200", Text := "plain", ThreadTs := "" }

/-- A reply inside the thread of `sampleRoot`. -/
def sampleReply : Message :=
  { Ts := "1690000000.000300", Text := "reply", ThreadTs := "1690000000.000100" }

/-- A page that continues: `has_more` with a cursor. -/
def pageMore : HistoryResponse :=
  { Messages := [sampleRoot, sampleReply], HasMore := true, ResponseMetadata := ⟨"c1"⟩ }

/-- A page that stops on both signals. -/
def pageEnd : HistoryResponse :=
  { Messages := [samplePlain], HasMore := false, ResponseMetadata := ⟨""⟩ }

/-- A page whose signals disagree: a cursor without `has_more`. -/
def pageEndWithCursor : HistoryResponse :=
  { Messages := [sampleReply, samplePlain], HasMore := false, ResponseMetadata := ⟨"c2"⟩ }

/-- The timestamp with its decimal point removed, in the spec's words. -/
def removeDots (ts : String) : String :=
  ⟨ts.data.filter (fun c => decide (c ≠ '.'))⟩

/-- The permalink of a thread, in the spec's words: the archive address, the
channel id as it is, `/p`, the timestamp without its decimal point. -/
def permalink (channelID ts : String) : String :=
  "https://slack.com/archives/" ++ channelID ++ "/p" ++ removeDots ts

/-- The lines of the replies, in the spec's words: for each reply a
`## Message` line and a line with the reply's text. -/
def messageLines : List Message → String
  | [] => ""
  | r :: rs => "## Message\n" ++ r.Text ++ "\n" ++ messageLines rs

/-- The block of a thread, in the spec's words: the `# Thread` line, the
permalink line, the lines of the replies. -/
def threadBlock (channelID : String) (msg : Message) (replies : List Message) : String :=
  "# Thread\n" ++ permalink channelID msg.Ts ++ "\n" ++ messageLines replies

/-- The warning line of a thread whose replies could not be fetched. -/
def warningLine (msg : Message) (err : String) : String :=
  "Error fetching thread " ++ msg.Ts ++ ": " ++ err ++ "\n"

/-- The report of a list of threads, each with the outcome of its reply
fetch: a block for a fetch that succeeded, a warning line for one that
failed. -/
def report (channelID : String) : List (Message × Except String (List Message)) → String
  | [] => ""
  | (msg, .ok replies) :: rest => threadBlock channelID msg replies ++ report channelID rest
  | (msg, .error err) :: rest => warningLine msg err ++ report channelID rest

/-- The blocks of the threads whose reply fetch succeeded, in order. -/
def blocks (channelID : String) : List (Message × Except String (List Message)) → String
  | [] => ""
  | (msg, .ok replies) :: rest => threadBlock channelID msg replies ++ blocks channelID rest
  | (_, .error _) :: rest => blocks channelID rest

/-- Whether the reply fetch of a thread succeeded. -/
def fetched : Message × Except String (List Message) → Bool
  | (_, .ok _) => true
  | (_, .error _) => false

/-- What `doRequestWithRetry` returns for the client outcome that ends its
loop. -/
def returnedOf : ClientOutcome → Returned Response
  | .response resp => .ok resp
  | .failure err => .err err

/-- The number of requests among the effects of a run. -/
def requestCount (events : List Event) : Nat :=
  events.count Event.request

/-- The durations slept among the effects of a run, in order. -/
def sleepDurations : List Event → List Int
  | [] => []
  | .sleep d :: rest => d :: sleepDurations rest
  | _ :: rest => sleepDurations rest

/-- The effects of one rate-limited attempt that waits `n` seconds. -/
def limitedAttempt (n : Int) : List Event :=
  [.request, .print ("Rate limited. Waiting " ++ toString n ++ " seconds...\n"),
    .sleep (n * 1000000000)]

/-- A top-level collector that returns a fixed list. -/
def constantTopLevel (messages : List Message) :
    String → String → Int → Collector (List (Except String (List Message))) :=
  fun _ _ _ world => (.ok messages, world)

/-- The driver loop run on threads paired with the outcomes of their reply
fetches. -/
def runThreads (slackToken channelID : String)
    (threads : List (Message × Except String (List Message))) :
    MainRun (List (Except String (List Message))) :=
  threadLoop scriptedReplies slackToken channelID (threads.map Prod.fst)
    (threads.map Prod.snd) ""

/-- Three threads for the driver: the second reply fetch fails. -/
def sampleThreads : List (Message × Except String (List Message)) :=
  [(sampleRoot, .ok [sampleRoot, sampleReply]), (samplePlain, .error "timeout"),
    (sampleReply, .ok [sampleReply])]

/-! ## Lemmas on the collectors -/

theorem keepTopLevel_iff (m : Message) : keepTopLevel m = true ↔ isTopLevel m := by
  simp [keepTopLevel, isTopLevel]

theorem keepTopLevel_eq : keepTopLevel = fun m => decide (isTopLevel m) := by
  funext m
  by_cases h : isTopLevel m
  · simp [h, (keepTopLevel_iff m).2 h]
  · have : keepTopLevel m ≠ true := fun hk => h ((keepTopLevel_iff m).1 hk)
    simp [h, this]

theorem lastPage_iff (res : HistoryResponse) :
    lastPage res = true ↔ res.HasMore = false ∨ res.ResponseMetadata.NextCursor = "" := by
  simp [lastPage]

theorem lastPage_false_iff (res : HistoryResponse) :
    lastPage res = false ↔ res.HasMore = true ∧ res.ResponseMetadata.NextCursor ≠ "" := by
  simp [lastPage]

theorem appendTopLevel_eq (page messages : List Message) :
    appendTopLevel messages page = messages ++ page.filter (fun m => decide (isTopLevel m)) := by
  rw [← keepTopLevel_eq]
  induction page generalizing messages with
  | nil => simp [appendTopLevel]
  | cons m ms ih =>
    have h := ih (if keepTopLevel m then messages ++ [m] else messages)
    simp only [appendTopLevel, List.foldl_cons] at h ⊢
    rw [h]
    by_cases hk : keepTopLevel m = true <;> simp [hk, List.filter_cons]

/-- The top-level loop on a script of decoded pages: how many requests it
issues, what it leaves of the script, and what it returns. -/
theorem fetchTopLevelLoop_pages (token channel : String) (fetchPages : Int)
    (pages : List HistoryResponse) :
    ∀ (messages : List Message) (cursor : String) (pagesFetched : Int),
      (fetchTopLevelLoop token channel fetchPages (pages.map .page) messages cursor
          pagesFetched).requests.length ≤ pages.length ∧
      (fetchTopLevelLoop token channel fetchPages (pages.map .page) messages cursor
          pagesFetched).rest =
        (pages.drop (fetchTopLevelLoop token channel fetchPages (pages.map .page) messages
          cursor pagesFetched).requests.length).map .page ∧
      ((fetchTopLevelLoop token channel fetchPages (pages.map .page) messages cursor
          pagesFetched).result =
        .ok (messages ++ ((pages.take (fetchTopLevelLoop token channel fetchPages
          (pages.map .page) messages cursor pagesFetched).requests.length).flatMap
            (·.Messages)).filter (fun m => decide (isTopLevel m))) ∨
       ((fetchTopLevelLoop token channel fetchPages (pages.map .page) messages cursor
          pagesFetched).result = .waiting ∧
        (fetchTopLevelLoop token channel fetchPages (pages.map .page) messages cursor
          pagesFetched).requests.length = pages.length ∧
        (∀ p ∈ pages, lastPage p = false) ∧
        ¬ (fetchPages > 0 ∧ pagesFetched + pages.length ≥ fetchPages))) := by
  induction pages with
  | nil =>
    intro messages cursor pagesFetched
    by_cases hcap : fetchPages > 0 ∧ pagesFetched ≥ fetchPages
    · simp [fetchTopLevelLoop, hcap]
    · simp [fetchTopLevelLoop, hcap]
  | cons p ps ih =>
    intro messages cursor pagesFetched
    by_cases hcap : fetchPages > 0 ∧ pagesFetched ≥ fetchPages
    · simp [fetchTopLevelLoop, hcap]
    · by_cases hlast : lastPage p = true
      · simp [fetchTopLevelLoop, hcap, hlast, appendTopLevel_eq]
      · have hlast' : lastPage p = false := by simpa using hlast
        obtain ⟨h1, h2, h3⟩ := ih (appendTopLevel messages p.Messages)
          p.ResponseMetadata.NextCursor (pagesFetched + 1)
        simp only [List.map_cons, fetchTopLevelLoop, hcap, if_false, hlast', Bool.false_eq_true,
          List.length_cons, List.drop_succ_cons, List.take_succ_cons, List.flatMap_cons,
          List.filter_append, List.mem_cons, forall_eq_or_imp]
        refine ⟨by omega, h2, ?_⟩
        rcases h3 with h3 | ⟨h3, h4, h5, h6⟩
        · left
          rw [h3, appendTopLevel_eq, List.append_assoc]
        · right
          refine ⟨h3, by omega, ⟨trivial, h5⟩, ?_⟩
          intro hc
          apply h6
          refine ⟨hc.1, ?_⟩
          have := hc.2
          push_cast at this ⊢
          omega

/-- With a positive cap the top-level loop never issues more requests than
the cap leaves, whatever the script, and it is still waiting only when the
script is shorter than that. -/
theorem fetchTopLevelLoop_cap (token channel : String) (fetchPages : Int)
    (hpos : 0 < fetchPages) (script : List PageOutcome) :
    ∀ (messages : List Message) (cursor : String) (pagesFetched : Int),
      pagesFetched ≤ fetchPages →
      ((fetchTopLevelLoop token channel fetchPages script messages cursor
          pagesFetched).requests.length : Int) + pagesFetched ≤ fetchPages ∧
      ((fetchTopLevelLoop token channel fetchPages script messages cursor
          pagesFetched).result = .waiting →
        (fetchTopLevelLoop token channel fetchPages script messages cursor
          pagesFetched).requests.length = script.length ∧
        pagesFetched + script.length < fetchPages) := by
  induction script with
  | nil =>
    intro messages cursor pagesFetched hle
    by_cases hcap : fetchPages > 0 ∧ pagesFetched ≥ fetchPages
    · simp [fetchTopLevelLoop, hcap, hle]
    · simp only [fetchTopLevelLoop, hcap, if_false, List.length_nil]
      refine ⟨by simpa using hle, fun _ => ⟨trivial, ?_⟩⟩
      have : ¬ pagesFetched ≥ fetchPages := fun h => hcap ⟨hpos, h⟩
      simp only [Nat.cast_zero]
      omega
  | cons o rest ih =>
    intro messages cursor pagesFetched hle
    by_cases hcap : fetchPages > 0 ∧ pagesFetched ≥ fetchPages
    · simp [fetchTopLevelLoop, hcap, hle]
    · have hlt : pagesFetched < fetchPages := by
        have : ¬ pagesFetched ≥ fetchPages := fun h => hcap ⟨hpos, h⟩
        omega
      cases o with
      | failure err =>
        simp only [fetchTopLevelLoop, hcap, if_false, List.length_cons, List.length_nil]
        refine ⟨by push_cast; omega, fun h => by simp at h⟩
      | page res =>
        by_cases hlast : lastPage res = true
        · simp only [fetchTopLevelLoop, hcap, if_false, hlast, if_true, List.length_cons,
            List.length_nil]
          refine ⟨by push_cast; omega, fun h => by simp at h⟩
        · have hlast' : lastPage res = false := by simpa using hlast
          obtain ⟨h1, h2⟩ := ih (appendTopLevel messages res.Messages)
            res.ResponseMetadata.NextCursor (pagesFetched + 1) (by omega)
          simp only [fetchTopLevelLoop, hcap, if_false, hlast', Bool.false_eq_true,
            List.length_cons]
          refine ⟨by push_cast; omega, fun h => ?_⟩
          obtain ⟨h3, h4⟩ := h2 h
          refine ⟨by rw [h3], ?_⟩
          push_cast
          omega

/-- The top-level loop on pages that all continue, followed by a page that
stops, with the cap out of reach: one request per page with the cursor of
the page before, the stopping page included in the result, the rest of the
script untouched. -/
theorem fetchTopLevelLoop_until_last (token channel : String) (fetchPages : Int)
    (last : HistoryResponse) (rest : List PageOutcome) (hlast : lastPage last = true)
    (pre : List HistoryResponse) :
    ∀ (messages : List Message) (cursor : String) (pagesFetched : Int),
      (∀ p ∈ pre, lastPage p = false) →
      ¬ (fetchPages > 0 ∧ pagesFetched + pre.length ≥ fetchPages) →
      fetchTopLevelLoop token channel fetchPages (pre.map .page ++ .page last :: rest)
          messages cursor pagesFetched =
        { requests := (cursor :: pre.map (·.ResponseMetadata.NextCursor)).map
            (historyRequest token channel)
          sleeps := []
          result := .ok (messages ++ topLevelOf (pre ++ [last]))
          rest := rest } := by
  induction pre with
  | nil =>
    intro messages cursor pagesFetched _ hcap
    have hcap' : ¬ (fetchPages > 0 ∧ pagesFetched ≥ fetchPages) := by simpa using hcap
    simp [fetchTopLevelLoop, hcap', hlast, appendTopLevel_eq, topLevelOf]
  | cons p ps ih =>
    intro messages cursor pagesFetched hpre hcap
    have hp : lastPage p = false := hpre p (List.mem_cons_self _ _)
    rw [List.length_cons] at hcap
    have hcap' : ¬ (fetchPages > 0 ∧ pagesFetched ≥ fetchPages) := by
      intro hc
      apply hcap
      refine ⟨hc.1, ?_⟩
      have := hc.2
      push_cast
      omega
    have hrec := ih (appendTopLevel messages p.Messages) p.ResponseMetadata.NextCursor
      (pagesFetched + 1) (fun q hq => hpre q (List.mem_cons_of_mem _ hq)) (by
        intro hc
        apply hcap
        refine ⟨hc.1, ?_⟩
        have := hc.2
        push_cast at this ⊢
        omega)
    simp only [List.map_cons, List.cons_append, fetchTopLevelLoop, hcap', if_false, hp,
      Bool.false_eq_true]
    erw [hrec]
    simp [appendTopLevel_eq, topLevelOf, List.filter_append, List.append_assoc]

/-- The reply loop on pages that all continue, followed by a page that
stops: one request per page, a one-second pause after every page but the
last, every message of every page in the result. -/
theorem fetchThreadRepliesLoop_until_last (token channel threadTs : String)
    (last : HistoryResponse) (rest : List PageOutcome) (hlast : lastPage last = true)
    (pre : List HistoryResponse) :
    ∀ (replies : List Message) (cursor : String),
      (∀ p ∈ pre, lastPage p = false) →
      fetchThreadRepliesLoop token channel threadTs (pre.map .page ++ .page last :: rest)
          replies cursor =
        { requests := (cursor :: pre.map (·.ResponseMetadata.NextCursor)).map
            (repliesRequest token channel threadTs)
          sleeps := List.replicate pre.length (secondsDuration 1)
          result := .ok (replies ++ (pre ++ [last]).flatMap (·.Messages))
          rest := rest } := by
  induction pre with
  | nil =>
    intro replies cursor _
    simp [fetchThreadRepliesLoop, hlast]
  | cons p ps ih =>
    intro replies cursor hpre
    have hp : lastPage p = false := hpre p (List.mem_cons_self _ _)
    have hrec := ih (replies ++ p.Messages) p.ResponseMetadata.NextCursor
      (fun q hq => hpre q (List.mem_cons_of_mem _ hq))
    simp only [List.map_cons, List.cons_append, fetchThreadRepliesLoop, hp,
      Bool.false_eq_true, if_false]
    erw [hrec]
    simp [List.replicate_succ, List.append_assoc]

/-- The reply loop on pages that all continue: it is still waiting when the
script ends, having requested every page. -/
theorem fetchThreadRepliesLoop_waiting (token channel threadTs : String)
    (pages : List HistoryResponse) :
    ∀ (replies : List Message) (cursor : String),
      (∀ p ∈ pages, lastPage p = false) →
      (fetchThreadRepliesLoop token channel threadTs (pages.map .page) replies
          cursor).result = .waiting ∧
      (fetchThreadRepliesLoop token channel threadTs (pages.map .page) replies
          cursor).requests.length = pages.length := by
  induction pages with
  | nil =>
    intro replies cursor _
    simp [fetchThreadRepliesLoop]
  | cons p ps ih =>
    intro replies cursor hpre
    have hp : lastPage p = false := hpre p (List.mem_cons_self _ _)
    obtain ⟨h1, h2⟩ := ih (replies ++ p.Messages) p.ResponseMetadata.NextCursor
      (fun q hq => hpre q (List.mem_cons_of_mem _ hq))
    simp [fetchThreadRepliesLoop, hp, h1, h2]

/-- The top-level loop on pages that all continue, with the cap out of
reach: it is still waiting when the script ends, having requested every
page. -/
theorem fetchTopLevelLoop_waiting (token channel : String) (fetchPages : Int)
    (pages : List HistoryResponse) :
    ∀ (messages : List Message) (cursor : String) (pagesFetched : Int),
      (∀ p ∈ pages, lastPage p = false) →
      ¬ (fetchPages > 0 ∧ pagesFetched + pages.length ≥ fetchPages) →
      (fetchTopLevelLoop token channel fetchPages (pages.map .page) messages cursor
          pagesFetched).result = .waiting ∧
      (fetchTopLevelLoop token channel fetchPages (pages.map .page) messages cursor
          pagesFetched).requests.length = pages.length := by
  induction pages with
  | nil =>
    intro messages cursor pagesFetched _ hcap
    have hcap' : ¬ (fetchPages > 0 ∧ pagesFetched ≥ fetchPages) := by simpa using hcap
    simp [fetchTopLevelLoop, hcap']
  | cons p ps ih =>
    intro messages cursor pagesFetched hpre hcap
    rw [List.length_cons] at hcap
    have hp : lastPage p = false := hpre p (List.mem_cons_self _ _)
    have hcap' : ¬ (fetchPages > 0 ∧ pagesFetched ≥ fetchPages) := by
      intro hc
      apply hcap
      refine ⟨hc.1, ?_⟩
      have := hc.2
      push_cast
      omega
    obtain ⟨h1, h2⟩ := ih (appendTopLevel messages p.Messages) p.ResponseMetadata.NextCursor
      (pagesFetched + 1) (fun q hq => hpre q (List.mem_cons_of_mem _ hq)) (by
        intro hc
        apply hcap
        refine ⟨hc.1, ?_⟩
        have := hc.2
        push_cast at this ⊢
        omega)
    simp only [List.map_cons, fetchTopLevelLoop, hcap', if_false, hp, Bool.false_eq_true,
      List.length_cons]
    exact ⟨h1, by rw [h2]⟩

/-! ## The collectors: claims C1 to C5 -/

/-- The pages the top-level loop requests are those the cap and the first
stopping page leave to fetch. -/
theorem fetchTopLevelLoop_fetched (token channel : String) (fetchPages : Int)
    (pages : List HistoryResponse) :
    ∀ (messages : List Message) (cursor : String) (pagesFetched : Int),
      pages.take (fetchTopLevelLoop token channel fetchPages (pages.map .page) messages
          cursor pagesFetched).requests.length =
        pagesToFetchFrom fetchPages pagesFetched pages := by
  induction pages with
  | nil =>
    intro messages cursor pagesFetched
    simp [pagesToFetchFrom, throughFirstStop]
  | cons p ps ih =>
    intro messages cursor pagesFetched
    by_cases hcap : fetchPages > 0 ∧ pagesFetched ≥ fetchPages
    · have hz : (fetchPages - pagesFetched).toNat = 0 := by
        have := hcap.2
        omega
      have hpos : 0 < fetchPages := hcap.1
      simp [fetchTopLevelLoop, hcap, pagesToFetchFrom, hpos, hz]
    · by_cases hlast : lastPage p = true
      · have hstop := (lastPage_iff p).1 hlast
        by_cases hpos : 0 < fetchPages
        · have hlt : ¬ pagesFetched ≥ fetchPages := fun h => hcap ⟨hpos, h⟩
          obtain ⟨k, hk⟩ : ∃ k, (fetchPages - pagesFetched).toNat = k + 1 :=
            ⟨(fetchPages - pagesFetched).toNat - 1, by omega⟩
          have hlt' : ¬ fetchPages ≤ pagesFetched := by omega
          simp [fetchTopLevelLoop, hlt', hlast, pagesToFetchFrom, throughFirstStop, hstop,
            hpos, hk]
        · simp [fetchTopLevelLoop, hcap, hlast, pagesToFetchFrom, throughFirstStop, hstop,
            hpos]
      · have hlast' : lastPage p = false := by simpa using hlast
        have hstop : ¬ (p.HasMore = false ∨ p.ResponseMetadata.NextCursor = "") :=
          fun h => hlast ((lastPage_iff p).2 h)
        have hrec := ih (appendTopLevel messages p.Messages) p.ResponseMetadata.NextCursor
          (pagesFetched + 1)
        simp only [List.map_cons, fetchTopLevelLoop, hcap, if_false, hlast',
          Bool.false_eq_true, List.length_cons, List.take_succ_cons, hrec]
        by_cases hpos : 0 < fetchPages
        · have hlt : ¬ pagesFetched ≥ fetchPages := fun h => hcap ⟨hpos, h⟩
          have hk : (fetchPages - pagesFetched).toNat =
              (fetchPages - (pagesFetched + 1)).toNat + 1 := by omega
          simp only [pagesToFetchFrom, hpos, if_true, throughFirstStop, hstop, if_false, hk,
            List.take_succ_cons]
        · simp only [pagesToFetchFrom, hpos, if_false, throughFirstStop, hstop]

/-- C1: on every sequence of decoded history pages and every page cap,
`fetchTopLevelMessages` requests exactly the pages through the first one
whose `has_more` is false or whose `next_cursor` is empty, and no more of
them than a positive cap allows; the first page is always among them.  The
list it returns is the messages of those pages, in page order, restricted to
those whose `ThreadTs` is empty or equal to their `Ts`: every such message of
a fetched page is in it and no message with a non-empty `ThreadTs` different
from its `Ts` is.  It returns whenever some page stops or a positive cap is
within the sequence; otherwise it is still requesting when the sequence
ends. -/
theorem fetchTopLevelMessages_keeps_top_level (token channel : String) (fetchPages : Int)
    (pages : List HistoryResponse) :
    (fetchTopLevelMessages token channel fetchPages (pages.map .page)).requests.length =
      (pagesToFetch fetchPages pages).length ∧
    pages.take (pagesToFetch fetchPages pages).length = pagesToFetch fetchPages pages ∧
    (∀ first : HistoryResponse, pages.head? = some first →
      (pagesToFetch fetchPages pages).head? = some first) ∧
    (fetchTopLevelMessages token channel fetchPages (pages.map .page)).rest =
      (pages.drop (pagesToFetch fetchPages pages).length).map .page ∧
    (((∃ p ∈ pages, p.HasMore = false ∨ p.ResponseMetadata.NextCursor = "") ∨
        (0 < fetchPages ∧ fetchPages ≤ pages.length)) →
      (fetchTopLevelMessages token channel fetchPages (pages.map .page)).result =
        .ok (((pagesToFetch fetchPages pages).flatMap (·.Messages)).filter
          (fun m => decide (m.ThreadTs = "" ∨ m.ThreadTs = m.Ts)))) ∧
    (¬ ((∃ p ∈ pages, p.HasMore = false ∨ p.ResponseMetadata.NextCursor = "") ∨
        (0 < fetchPages ∧ fetchPages ≤ pages.length)) →
      (fetchTopLevelMessages token channel fetchPages (pages.map .page)).result = .waiting ∧
      pagesToFetch fetchPages pages = pages) ∧
    (∀ m ∈ (pagesToFetch fetchPages pages).flatMap (·.Messages),
      (m.ThreadTs = "" ∨ m.ThreadTs = m.Ts) →
      m ∈ ((pagesToFetch fetchPages pages).flatMap (·.Messages)).filter
        (fun m => decide (m.ThreadTs = "" ∨ m.ThreadTs = m.Ts))) ∧
    (∀ m : Message, m.ThreadTs ≠ "" → m.ThreadTs ≠ m.Ts →
      m ∉ ((pagesToFetch fetchPages pages).flatMap (·.Messages)).filter
        (fun m => decide (m.ThreadTs = "" ∨ m.ThreadTs = m.Ts))) := by
  have htake := fetchTopLevelLoop_fetched token channel fetchPages pages [] "" 0
  obtain ⟨hle, hrest, hres⟩ := fetchTopLevelLoop_pages token channel fetchPages pages [] "" 0
  have hlen : (fetchTopLevelMessages token channel fetchPages (pages.map .page)).requests.length
      = (pagesToFetch fetchPages pages).length := by
    have h := congrArg List.length htake
    rw [List.length_take, Nat.min_eq_left hle] at h
    exact h
  have hlen' : (fetchTopLevelLoop token channel fetchPages (pages.map .page) [] ""
      0).requests.length = (pagesToFetch fetchPages pages).length := hlen
  refine ⟨hlen, ?_, ?_, ?_, ?_, ?_, ?_, ?_⟩
  · rw [← hlen']
    exact htake
  · intro first hfirst
    cases pages with
    | nil => simp at hfirst
    | cons p ps =>
      simp only [List.head?_cons, Option.some.injEq] at hfirst
      subst hfirst
      by_cases hstop : p.HasMore = false ∨ p.ResponseMetadata.NextCursor = ""
      · by_cases hpos : 0 < fetchPages
        · obtain ⟨k, hk⟩ : ∃ k, fetchPages.toNat = k + 1 :=
            ⟨fetchPages.toNat - 1, by omega⟩
          simp [pagesToFetch, pagesToFetchFrom, throughFirstStop, hstop, hpos, hk]
        · simp [pagesToFetch, pagesToFetchFrom, throughFirstStop, hstop, hpos]
      · by_cases hpos : 0 < fetchPages
        · obtain ⟨k, hk⟩ : ∃ k, fetchPages.toNat = k + 1 :=
            ⟨fetchPages.toNat - 1, by omega⟩
          simp [pagesToFetch, pagesToFetchFrom, throughFirstStop, hstop, hpos, hk]
        · simp [pagesToFetch, pagesToFetchFrom, throughFirstStop, hstop, hpos]
  · rw [← hlen']
    exact hrest
  · intro hret
    rcases hres with hok | ⟨_, _, hall, hcap⟩
    · rw [htake] at hok
      simpa [fetchTopLevelMessages, pagesToFetch, isTopLevel] using hok
    · exfalso
      rcases hret with ⟨p, hp, hstop⟩ | hc
      · have h1 := hall p hp
        rw [(lastPage_iff p).2 hstop] at h1
        exact Bool.noConfusion h1
      · apply hcap
        refine ⟨hc.1, ?_⟩
        have := hc.2
        omega
  · intro hnot
    have hall : ∀ p ∈ pages, lastPage p = false := by
      intro p hp
      by_contra hl
      have hl' : lastPage p = true := by simpa using hl
      exact hnot (Or.inl ⟨p, hp, (lastPage_iff p).1 hl'⟩)
    have hcap : ¬ (fetchPages > 0 ∧ (0 : Int) + pages.length ≥ fetchPages) := by
      intro hc
      apply hnot
      right
      refine ⟨hc.1, ?_⟩
      have := hc.2
      omega
    obtain ⟨hw, hn⟩ := fetchTopLevelLoop_waiting token channel fetchPages pages [] "" 0 hall hcap
    refine ⟨hw, ?_⟩
    rw [hn, List.take_length] at htake
    exact htake.symm
  · intro m hm htop
    exact List.mem_filter.2 ⟨hm, by simpa using htop⟩
  · intro m h1 h2 hm
    have := (List.mem_filter.1 hm).2
    simp only [decide_eq_true_eq] at this
    rcases this with h | h
    · exact h1 h
    · exact h2 h

/-- Two runs of C1: without a cap both sample pages are fetched and the
reply of the first page is left out; with cap 1 only the first page is
fetched. -/
theorem fetchTopLevelMessages_keeps_top_level_runs :
    fetchTopLevelMessages "xoxb" "C123" 0 [.page pageMore, .page pageEnd, .page pageMore] =
      { requests := [historyRequest "xoxb" "C123" "", historyRequest "xoxb" "C123" "c1"]
        sleeps := []
        result := .ok [sampleRoot, samplePlain]
        rest := [.page pageMore] } ∧
    (fetchTopLevelMessages "xoxb" "C123" 1 [.page pageMore, .page pageEnd]).result =
      .ok [sampleRoot] := by
  decide

/-- C2: with a positive cap `n`, `fetchTopLevelMessages` issues at most `n`
page requests on every script of page outcomes (the request it is waiting on
when the script ends counted in); with cap 0 it requests every page up to and
including the first one whose `has_more` is false or whose `next_cursor` is
empty, however many pages come before it, and is still requesting when the
script holds only pages that continue. -/
theorem fetchTopLevelMessages_page_cap (token channel : String) (n : Int)
    (script : List PageOutcome) (pre : List HistoryResponse) (last : HistoryResponse)
    (rest : List PageOutcome) (hn : 0 < n)
    (hpre : ∀ p ∈ pre, p.HasMore = true ∧ p.ResponseMetadata.NextCursor ≠ "")
    (hlast : last.HasMore = false ∨ last.ResponseMetadata.NextCursor = "") :
    ((fetchTopLevelMessages token channel n script).requests.length : Int) ≤ n ∧
    ((fetchTopLevelMessages token channel n script).result = .waiting →
      ((fetchTopLevelMessages token channel n script).requests.length : Int) + 1 ≤ n) ∧
    (fetchTopLevelMessages token channel 0 (pre.map .page ++ .page last :: rest)).requests.length
      = pre.length + 1 ∧
    (fetchTopLevelMessages token channel 0 (pre.map .page ++ .page last :: rest)).result
      = .ok (topLevelOf (pre ++ [last])) ∧
    (fetchTopLevelMessages token channel 0 (pre.map .page ++ .page last :: rest)).rest = rest ∧
    (fetchTopLevelMessages token channel 0 (pre.map .page)).result = .waiting ∧
    (fetchTopLevelMessages token channel 0 (pre.map .page)).requests.length = pre.length := by
  have hpre' : ∀ p ∈ pre, lastPage p = false := fun p hp => (lastPage_false_iff p).2 (hpre p hp)
  have hcap := fetchTopLevelLoop_cap token channel n hn script [] "" 0 (le_of_lt hn)
  have hrun := fetchTopLevelLoop_until_last token channel 0 last rest
    ((lastPage_iff last).2 hlast) pre [] "" 0 hpre' (by simp)
  have hwait := fetchTopLevelLoop_waiting token channel 0 pre [] "" 0 hpre' (by simp)
  refine ⟨by simpa [fetchTopLevelMessages] using hcap.1, ?_, ?_, ?_, ?_, hwait.1, hwait.2⟩
  · intro h
    obtain ⟨h1, h2⟩ := hcap.2 h
    have h3 : (fetchTopLevelMessages token channel n script).requests.length = script.length :=
      h1
    rw [h3]
    omega
  · simp [fetchTopLevelMessages, hrun]
  · simp [fetchTopLevelMessages, hrun]
  · simp [fetchTopLevelMessages, hrun]

/-- A run of C2: cap 2 on three pages that continue stops after two
requests; cap 0 on `pageMore, pageMore, pageEnd` requests all three. -/
theorem fetchTopLevelMessages_page_cap_witness :
    ((fetchTopLevelMessages "xoxb" "C123" 2
        [.page pageMore, .page pageMore, .page pageMore]).requests.length : Int) ≤ 2 ∧
    (fetchTopLevelMessages "xoxb" "C123" 0
        ([pageMore, pageMore].map .page ++ .page pageEnd :: [.failure "eof"])).requests.length
      = 3 :=
  have h := fetchTopLevelMessages_page_cap "xoxb" "C123" 2
    [.page pageMore, .page pageMore, .page pageMore] [pageMore, pageMore] pageEnd
    [.failure "eof"] (by decide) (by decide) (by decide)
  ⟨h.1, h.2.2.1⟩

/-- C4, as stated, fails for the default cap: on a first page with
`has_more` and a cursor and a second page without `has_more`,
`fetchTopLevelMessages` with `fetch-limit` 1 issues one request, not two,
and leaves the second page unread. -/
theorem fetchTopLevelMessages_default_cap_one_request :
    (fetchTopLevelMessages "xoxb" "C123" defaultFetchLimit
        [.page pageMore, .page pageEnd]).requests.length = 1 ∧
    ¬ (fetchTopLevelMessages "xoxb" "C123" defaultFetchLimit
        [.page pageMore, .page pageEnd]).requests.length = 2 ∧
    (fetchTopLevelMessages "xoxb" "C123" defaultFetchLimit
        [.page pageMore, .page pageEnd]).rest = [.page pageEnd] := by
  decide

/-- C4, amended: on a first page with `has_more` and a non-empty cursor and
a second page without `has_more`, `fetchTopLevelMessages` issues exactly two
requests (the second with the first page's cursor) and returns the top-level
messages of both pages when the cap is not 1; with cap 1, the default, it
issues the first request only and returns the first page's top-level
messages. -/
theorem fetchTopLevelMessages_two_pages (token channel : String) (fetchPages : Int)
    (first second : HistoryResponse) (rest : List PageOutcome)
    (hmore : first.HasMore = true) (hcursor : first.ResponseMetadata.NextCursor ≠ "")
    (hend : second.HasMore = false) :
    (fetchPages ≠ 1 →
      fetchTopLevelMessages token channel fetchPages (.page first :: .page second :: rest) =
        { requests := [historyRequest token channel "",
            historyRequest token channel first.ResponseMetadata.NextCursor]
          sleeps := []
          result := .ok (topLevelOf [first, second])
          rest := rest }) ∧
    (fetchPages = 1 →
      fetchTopLevelMessages token channel fetchPages (.page first :: .page second :: rest) =
        { requests := [historyRequest token channel ""]
          sleeps := []
          result := .ok (topLevelOf [first])
          rest := .page second :: rest }) := by
  have hfirst : lastPage first = false := (lastPage_false_iff first).2 ⟨hmore, hcursor⟩
  have hsecond : lastPage second = true := (lastPage_iff second).2 (Or.inl hend)
  constructor
  · intro hne
    have h := fetchTopLevelLoop_until_last token channel fetchPages second rest hsecond
      [first] [] "" 0 (by simpa using hfirst) (by
        intro hc
        apply hne
        have := hc.2
        simp only [List.length_singleton, Nat.cast_one] at this
        omega)
    simpa [fetchTopLevelMessages] using h
  · intro h1
    subst h1
    simp [fetchTopLevelMessages, fetchTopLevelLoop, hfirst, appendTopLevel_eq, topLevelOf]

/-- Two runs of the amended C4: cap 0 gives two requests, cap 1 gives one. -/
theorem fetchTopLevelMessages_two_pages_witness :
    (fetchTopLevelMessages "xoxb" "C123" 0 [.page pageMore, .page pageEnd]).requests.length
      = 2 ∧
    (fetchTopLevelMessages "xoxb" "C123" 1 [.page pageMore, .page pageEnd]).requests.length
      = 1 :=
  ⟨by
      rw [(fetchTopLevelMessages_two_pages "xoxb" "C123" 0 pageMore pageEnd [] (by decide)
        (by decide) (by decide)).1 (by decide)]
      rfl,
    by
      rw [(fetchTopLevelMessages_two_pages "xoxb" "C123" 1 pageMore pageEnd [] (by decide)
        (by decide) (by decide)).2 rfl]
      rfl⟩

/-- C5: for every thread timestamp and every sequence of decoded reply
pages, `fetchThreadReplies` returns the messages of every page up to and
including the first one whose `has_more` is false or whose `next_cursor` is
empty, concatenated in page order with nothing filtered out, however many
pages come before that one (no cap); it issues one request per such page and
reads no further; the first message of the first page, the thread root,
heads the result.  On pages that all continue it requests every one of them
and is still requesting when the script ends. -/
theorem fetchThreadReplies_returns_all_pages (token channel threadTs : String)
    (pre : List HistoryResponse) (last : HistoryResponse) (rest : List PageOutcome)
    (hpre : ∀ p ∈ pre, p.HasMore = true ∧ p.ResponseMetadata.NextCursor ≠ "")
    (hlast : last.HasMore = false ∨ last.ResponseMetadata.NextCursor = "") :
    fetchThreadReplies token channel threadTs (pre.map .page ++ .page last :: rest) =
      { requests := ("" :: pre.map (·.ResponseMetadata.NextCursor)).map
          (repliesRequest token channel threadTs)
        sleeps := List.replicate pre.length (secondsDuration 1)
        result := .ok ((pre ++ [last]).flatMap (·.Messages))
        rest := rest } ∧
    (∀ root : Message, ((pre ++ [last]).head?.bind (·.Messages.head?)) = some root →
      ∃ tail, (fetchThreadReplies token channel threadTs
        (pre.map .page ++ .page last :: rest)).result = .ok (root :: tail)) ∧
    (fetchThreadReplies token channel threadTs (pre.map .page)).result = .waiting ∧
    (fetchThreadReplies token channel threadTs (pre.map .page)).requests.length =
      pre.length := by
  have hpre' : ∀ p ∈ pre, lastPage p = false := fun p hp => (lastPage_false_iff p).2 (hpre p hp)
  have hrun := fetchThreadRepliesLoop_until_last token channel threadTs last rest
    ((lastPage_iff last).2 hlast) pre [] "" hpre'
  have hrun' : fetchThreadReplies token channel threadTs (pre.map .page ++ .page last :: rest) =
      { requests := ("" :: pre.map (·.ResponseMetadata.NextCursor)).map
          (repliesRequest token channel threadTs)
        sleeps := List.replicate pre.length (secondsDuration 1)
        result := .ok ((pre ++ [last]).flatMap (·.Messages))
        rest := rest } := by
    simpa [fetchThreadReplies] using hrun
  refine ⟨hrun', ?_, fetchThreadRepliesLoop_waiting token channel threadTs pre [] "" hpre'⟩
  intro root hroot
  rw [hrun']
  cases hps : pre ++ [last] with
  | nil => simp at hps
  | cons p ps =>
    rw [hps] at hroot
    simp only [List.head?_cons, Option.some_bind] at hroot
    cases hm : p.Messages with
    | nil => simp [hm] at hroot
    | cons m ms =>
      rw [hm] at hroot
      simp only [List.head?_cons, Option.some.injEq] at hroot
      subst hroot
      exact ⟨ms ++ ps.flatMap (·.Messages), by simp [List.flatMap_cons, hm]⟩

/-- A run of C5: two reply pages, the root first, all four messages back. -/
theorem fetchThreadReplies_returns_all_pages_witness :
    (fetchThreadReplies "xoxb" "C123" "1690000000.000100"
        ([pageMore].map .page ++ .page pageEndWithCursor :: [.failure "unread"])).result =
      .ok [sampleRoot, sampleReply, sampleReply, samplePlain] :=
  congrArg FetchRun.result
    (fetchThreadReplies_returns_all_pages "xoxb" "C123" "1690000000.000100" [pageMore]
      pageEndWithCursor [.failure "unread"] (by decide) (by decide)).1

/-! ## Lemmas on the library functions -/

theorem sprintfChars_baseThreadURL (channelID ts : String) :
    sprintfChars (baseThreadURL ++ "\n").data [channelID, ts] =
      "https://slack.com/archives/".data ++
        (channelID.data ++ ("/p".data ++ (ts.data ++ "\n".data))) := by
  rfl

theorem sprintfChars_rate_limited (n : String) :
    sprintfChars "Rate limited. Waiting %d seconds...\n".data [n] =
      "Rate limited. Waiting ".data ++ (n.data ++ " seconds...\n".data) := by
  rfl

theorem sprintfChars_error_thread (ts err : String) :
    sprintfChars "Error fetching thread %s: %v\n".data [ts, err] =
      "Error fetching thread ".data ++ (ts.data ++ (": ".data ++ (err.data ++ "\n".data))) := by
  rfl

theorem replaceFrom_dot (cs : List Char) :
    replaceFrom ".".data "".data 0 cs = cs.filter (fun c => decide (c ≠ '.')) := by
  induction cs with
  | nil => rfl
  | cons c cs ih =>
    by_cases hc : c = '.'
    · subst hc
      simp [replaceFrom, List.isPrefixOf, ih]
    · have hne : ('.' == c) = false := by
        simp only [beq_eq_false_iff_ne, ne_eq]
        exact fun h => hc h.symm
      simp [replaceFrom, List.isPrefixOf, ih, hc, hne]

theorem digitValue_digitChar (d : Nat) (hd : d < 10) :
    digitValue (Nat.digitChar d) = some d := by
  interval_cases d <;> rfl

theorem digitChar_not_sign (d : Nat) (hd : d < 10) :
    Nat.digitChar d ≠ '+' ∧ Nat.digitChar d ≠ '-' := by
  interval_cases d <;> decide

theorem parseDigits_toDigitsCore (fuel : Nat) :
    ∀ (n : Nat) (ds : List Char), n < fuel → n ≤ 18446744073709551615 →
      parseDigits (Nat.toDigitsCore 10 fuel n ds) 0 = parseDigits ds n := by
  induction fuel with
  | zero => intro n ds h; omega
  | succ fuel ih =>
    intro n ds h hmax
    have hd := digitValue_digitChar (n % 10) (Nat.mod_lt _ (by decide))
    by_cases h0 : n / 10 = 0
    · have hn : n % 10 = n := by omega
      have h1 : ¬ (0 ≥ 1844674407370955162) := by omega
      have h2 : ¬ (0 * 10 + n % 10 > 18446744073709551615) := by omega
      simp only [Nat.toDigitsCore, h0, if_true, parseDigits, hd, h1, h2, if_false]
      congr 1
      omega
    · simp only [Nat.toDigitsCore, h0, if_false]
      rw [ih (n / 10) _ (by omega) (by omega)]
      have h1 : ¬ (n / 10 ≥ 1844674407370955162) := by omega
      have h2 : ¬ (n / 10 * 10 + n % 10 > 18446744073709551615) := by omega
      simp only [parseDigits, hd, h1, h2, if_false]
      congr 1
      omega

theorem toDigitsCore_head (fuel : Nat) :
    ∀ (n : Nat) (ds : List Char),
      ∃ d tl, d < 10 ∧ Nat.toDigitsCore 10 (fuel + 1) n ds = Nat.digitChar d :: tl := by
  induction fuel with
  | zero =>
    intro n ds
    refine ⟨n % 10, ds, Nat.mod_lt _ (by decide), ?_⟩
    by_cases h0 : n / 10 = 0 <;> simp [Nat.toDigitsCore, h0]
  | succ fuel ih =>
    intro n ds
    by_cases h0 : n / 10 = 0
    · exact ⟨n % 10, ds, Nat.mod_lt _ (by decide), by simp [Nat.toDigitsCore, h0]⟩
    · obtain ⟨d, tl, hd, h⟩ := ih (n / 10) (Nat.digitChar (n % 10) :: ds)
      refine ⟨d, tl, hd, ?_⟩
      rw [← h]
      conv_lhs => rw [Nat.toDigitsCore]
      simp [h0]

theorem Atoi_of_digits (c : Char) (cs : List Char) (un : Nat)
    (hsign : c ≠ '+' ∧ c ≠ '-') (hparse : parseDigits (c :: cs) 0 = some un)
    (hun : un < 9223372036854775808) : Atoi ⟨c :: cs⟩ = (un : Int) := by
  have h2 : ¬ (un ≥ 9223372036854775808) := by omega
  simp [Atoi, hsign.1, hsign.2, hparse, h2]

theorem Atoi_of_minus (cs : List Char) (un : Nat) (hne : cs ≠ [])
    (hparse : parseDigits cs 0 = some un) (hun : un ≤ 9223372036854775808) :
    Atoi ⟨'-' :: cs⟩ = -(un : Int) := by
  have h2 : ¬ (un > 9223372036854775808) := by omega
  simp [Atoi, hne, hparse, h2]

/-- The function `Atoi` reads back the decimal text of an `int64`. -/
theorem Atoi_toString (n : Int) (hlo : -9223372036854775808 ≤ n)
    (hhi : n ≤ 9223372036854775807) : Atoi (toString n) = n := by
  cases n with
  | ofNat m =>
    obtain ⟨d, tl, hd, h⟩ := toDigitsCore_head m m []
    have hs : toString (Int.ofNat m) = ⟨Nat.digitChar d :: tl⟩ := by
      rw [← h]
      rfl
    rw [hs]
    have hm : (Int.ofNat m) = (m : Int) := rfl
    have hp : parseDigits (Nat.digitChar d :: tl) 0 = some m := by
      rw [← h, parseDigits_toDigitsCore (m + 1) m [] (by omega) (by omega)]
      rfl
    have := Atoi_of_digits _ tl m (digitChar_not_sign d hd) hp (by
      have : (Int.ofNat m) = (m : Int) := rfl
      omega)
    simpa using this
  | negSucc m =>
    obtain ⟨d, tl, hd, h⟩ := toDigitsCore_head (m + 1) (m + 1) []
    have hs : toString (Int.negSucc m) = ⟨'-' :: Nat.toDigitsCore 10 (m + 1 + 1) (m + 1) []⟩ := by
      rfl
    rw [hs]
    have hm : Int.negSucc m = -((m : Int) + 1) := rfl
    have hp : parseDigits (Nat.toDigitsCore 10 (m + 1 + 1) (m + 1) []) 0 = some (m + 1) := by
      rw [parseDigits_toDigitsCore (m + 1 + 1) (m + 1) [] (by omega) (by omega)]
      rfl
    have := Atoi_of_minus _ (m + 1) (by rw [h]; simp) hp (by
      have : Int.negSucc m = -((m : Int) + 1) := rfl
      omega)
    rw [this]
    rfl

/-- The function `Atoi` on texts that are not the decimal text of an
`int64`: a syntax error gives 0, also after a sign alone; a range error gives
the nearest `int64`, also when a character that is not a digit follows the
digit that overflows. -/
theorem Atoi_errors :
    Atoi "" = 0 ∧ Atoi "-" = 0 ∧ Atoi "12x" = 0 ∧ Atoi "+7" = 7 ∧
    Atoi "9223372036854775808" = 9223372036854775807 ∧
    Atoi "-9223372036854775809" = -9223372036854775808 ∧
    Atoi "99999999999999999999x" = 9223372036854775807 := by
  decide

/-! ## The retry loop: claim C10 -/

theorem secondsDuration_eq (n : Int) (hlo : -9223372036 ≤ n) (hhi : n ≤ 9223372036) :
    secondsDuration n = n * 1000000000 := by
  unfold secondsDuration wrapInt64 timeSecond
  omega

theorem Sprintf_rate_limited (n : String) :
    Sprintf "Rate limited. Waiting %d seconds...\n" [n] =
      "Rate limited. Waiting " ++ n ++ " seconds...\n" := by
  apply String.ext
  show sprintfChars "Rate limited. Waiting %d seconds...\n".data [n] = _
  rw [sprintfChars_rate_limited]
  simp [String.data_append]

theorem requestCount_limitedAttempt (n : Int) (events : List Event) :
    requestCount (limitedAttempt n ++ events) = requestCount events + 1 := by
  simp [requestCount, limitedAttempt, List.count_cons]

theorem sleepDurations_limitedAttempt (n : Int) (events : List Event) :
    sleepDurations (limitedAttempt n ++ events) = n * 1000000000 :: sleepDurations events := by
  simp [sleepDurations, limitedAttempt]

/-- The retry loop on rate-limited responses whose waits fit a
`time.Duration`, followed by an outcome that ends the loop. -/
theorem doRequestWithRetry_limited (final : ClientOutcome) (rest : List ClientOutcome)
    (hfinal : ∀ resp, final = .response resp → resp.StatusCode ≠ 429)
    (limited : List Response) :
    ∀ (waits : List Int),
      (∀ resp ∈ limited, resp.StatusCode = 429) →
      limited.map (·.RetryAfter) = waits.map toString →
      (∀ n ∈ waits, -9223372036 ≤ n ∧ n ≤ 9223372036) →
      doRequestWithRetry (limited.map .response ++ final :: rest) =
        { events := waits.flatMap limitedAttempt ++ [.request]
          result := returnedOf final
          rest := rest } := by
  induction limited with
  | nil =>
    intro waits _ hw _
    have : waits = [] := by simpa using hw.symm
    subst this
    cases final with
    | failure err => simp [doRequestWithRetry, returnedOf]
    | response resp =>
      have := hfinal resp rfl
      simp [doRequestWithRetry, returnedOf, this]
  | cons r rs ih =>
    intro waits hstatus hw hrange
    cases waits with
    | nil => simp at hw
    | cons n ns =>
      simp only [List.map_cons, List.cons.injEq] at hw
      have hr : r.StatusCode = 429 := hstatus r (List.mem_cons_self _ _)
      have hn := hrange n (List.mem_cons_self _ _)
      have hrec := ih ns (fun q hq => hstatus q (List.mem_cons_of_mem _ hq)) hw.2
        (fun q hq => hrange q (List.mem_cons_of_mem _ hq))
      have hatoi : Atoi r.RetryAfter = n := by
        rw [hw.1]
        exact Atoi_toString n (by omega) (by omega)
      simp only [List.map_cons, List.cons_append, doRequestWithRetry, hr, if_true, hatoi,
        secondsDuration_eq n hn.1 hn.2, Sprintf_rate_limited]
      erw [hrec]
      simp [limitedAttempt, List.flatMap_cons]

/-- C10 on the code, at a 429 response with `Retry-After: 9223372037`
followed by a 200: line 62 prints that it waits 9223372037 seconds, the
multiplication of line 63 wraps around in `int64` and `time.Sleep` gets a
negative duration, not 9223372037 seconds, so the request is re-issued
without the pause the claim and the printed line promise. -/
theorem doRequestWithRetry_wait_overflows :
    (doRequestWithRetry
        [.response ⟨429, "9223372037", ""⟩, .response ⟨200, "", "ok"⟩]).events =
      [.request, .print "Rate limited. Waiting 9223372037 seconds...\n",
        .sleep (-9223372036709551616), .request] ∧
    sleepDurations (doRequestWithRetry
        [.response ⟨429, "9223372037", ""⟩, .response ⟨200, "", "ok"⟩]).events ≠
      [9223372037 * 1000000000] := by
  decide

/-- The retry loop where the multiplication of line 63 does not wrap: if
the first `k` client outcomes are 429 responses whose `Retry-After` values
are the decimal texts of `n₁ … n_k`, each from 0 to 9223372036, and outcome
`k+1` is a response with another status or a transport error, then
`doRequestWithRetry` issues exactly `k+1` requests, sleeps exactly `k` times,
for `n₁ … n_k` seconds in that order, each sleep after its 429 response and
before the next request, and returns outcome `k+1`: the response, or the
error.  `k` is any length. -/
theorem doRequestWithRetry_retries (limited : List Response) (waits : List Int)
    (final : ClientOutcome) (rest : List ClientOutcome)
    (hstatus : ∀ resp ∈ limited, resp.StatusCode = 429)
    (hwaits : limited.map (·.RetryAfter) = waits.map toString)
    (hrange : ∀ n ∈ waits, 0 ≤ n ∧ n ≤ 9223372036)
    (hfinal : ∀ resp, final = .response resp → resp.StatusCode ≠ 429) :
    doRequestWithRetry (limited.map .response ++ final :: rest) =
      { events := waits.flatMap limitedAttempt ++ [.request]
        result := returnedOf final
        rest := rest } ∧
    requestCount (doRequestWithRetry (limited.map .response ++ final :: rest)).events =
      limited.length + 1 ∧
    sleepDurations (doRequestWithRetry (limited.map .response ++ final :: rest)).events =
      waits.map (· * 1000000000) := by
  have hrun := doRequestWithRetry_limited final rest hfinal limited waits hstatus hwaits
    (fun n hn => ⟨by have := (hrange n hn).1; omega, (hrange n hn).2⟩)
  have hlen : limited.length = waits.length := by
    simpa using congrArg List.length hwaits
  refine ⟨hrun, ?_, ?_⟩
  · rw [hrun, hlen]
    clear hrun hwaits hrange hlen
    induction waits with
    | nil => simp [requestCount]
    | cons n ns ih =>
      simp only [List.flatMap_cons, List.append_assoc, List.length_cons]
      rw [requestCount_limitedAttempt]
      simpa using ih
  · rw [hrun]
    clear hrun hwaits hrange hlen
    induction waits with
    | nil => simp [sleepDurations]
    | cons n ns ih =>
      simp only [List.flatMap_cons, List.append_assoc, List.map_cons]
      rw [sleepDurations_limitedAttempt]
      simpa using ih

/-- A run of the retry loop: two 429 responses asking for 2 and 30 seconds,
then a 200. -/
theorem doRequestWithRetry_retries_witness :
    (doRequestWithRetry ([⟨429, "2", ""⟩, ⟨429, "30", ""⟩].map .response ++
        .response ⟨200, "", "ok"⟩ :: [.failure "unused"])).events =
      [.request, .print "Rate limited. Waiting 2 seconds...\n", .sleep 2000000000,
        .request, .print "Rate limited. Waiting 30 seconds...\n", .sleep 30000000000,
        .request] :=
  congrArg RetryRun.events
    (doRequestWithRetry_retries [⟨429, "2", ""⟩, ⟨429, "30", ""⟩] [2, 30]
      (.response ⟨200, "", "ok"⟩) [.failure "unused"] (by decide) (by decide) (by decide)
      (by
        intro resp h
        cases h
        decide)).1

/-! ## Lemmas on the driver -/

theorem formatSlackTs_eq (ts : String) : formatSlackTs ts = removeDots ts := by
  apply String.ext
  show replaceFrom ".".data "".data 0 ts.data = _
  rw [replaceFrom_dot]
  rfl

theorem Sprintf_baseThreadURL (channelID ts : String) :
    Sprintf (baseThreadURL ++ "\n") [channelID, ts] =
      "https://slack.com/archives/" ++ channelID ++ "/p" ++ ts ++ "\n" := by
  apply String.ext
  show sprintfChars (baseThreadURL ++ "\n").data [channelID, ts] = _
  rw [sprintfChars_baseThreadURL]
  simp [String.data_append]

theorem Sprintf_error_thread (ts err : String) :
    Sprintf "Error fetching thread %s: %v\n" [ts, err] =
      "Error fetching thread " ++ ts ++ ": " ++ err ++ "\n" := by
  apply String.ext
  show sprintfChars "Error fetching thread %s: %v\n".data [ts, err] = _
  rw [sprintfChars_error_thread]
  simp [String.data_append]

theorem foldl_messageLines (replies : List Message) :
    ∀ stdout : String,
      replies.foldl (fun out r => out ++ "## Message" ++ "\n" ++ r.Text ++ "\n") stdout =
        stdout ++ messageLines replies := by
  induction replies with
  | nil => intro stdout; simp [messageLines]
  | cons r rs ih =>
    intro stdout
    rw [List.foldl_cons, ih]
    apply String.ext
    simp [messageLines, String.data_append]

theorem printThread_eq (channelID : String) (msg : Message) (replies : List Message)
    (stdout : String) :
    printThread channelID msg replies stdout = stdout ++ threadBlock channelID msg replies := by
  unfold printThread
  simp only [foldl_messageLines, Sprintf_baseThreadURL, formatSlackTs_eq]
  apply String.ext
  simp [threadBlock, permalink, String.data_append]

/-- One turn of the driver loop on a thread whose reply fetch succeeds. -/
theorem threadLoop_ok {σ : Type} (fetch : String → String → String → Collector σ)
    (slackToken channelID : String) (msg : Message) (rest : List Message) (world next : σ)
    (stdout : String) (replies : List Message)
    (hfetch : fetch slackToken channelID msg.Ts world = (.ok replies, next)) :
    threadLoop fetch slackToken channelID (msg :: rest) world stdout =
      { threadLoop fetch slackToken channelID rest next
          (stdout ++ threadBlock channelID msg replies) with
        processed := msg :: (threadLoop fetch slackToken channelID rest next
          (stdout ++ threadBlock channelID msg replies)).processed } := by
  simp only [threadLoop, hfetch, printThread_eq]

/-- One turn of the driver loop on a thread whose reply fetch fails. -/
theorem threadLoop_error {σ : Type} (fetch : String → String → String → Collector σ)
    (slackToken channelID : String) (msg : Message) (rest : List Message) (world next : σ)
    (stdout : String) (err : String)
    (hfetch : fetch slackToken channelID msg.Ts world = (.error err, next)) :
    threadLoop fetch slackToken channelID (msg :: rest) world stdout =
      { threadLoop fetch slackToken channelID rest next (stdout ++ warningLine msg err) with
        processed := msg :: (threadLoop fetch slackToken channelID rest next
          (stdout ++ warningLine msg err)).processed } := by
  simp only [threadLoop, hfetch, Sprintf_error_thread, warningLine]

/-- The driver loop fetches the thread of every message it is given, in
order, whatever the fetches return. -/
theorem threadLoop_processed {σ : Type} (fetch : String → String → String → Collector σ)
    (slackToken channelID : String) (messages : List Message) :
    ∀ (world : σ) (stdout : String),
      (threadLoop fetch slackToken channelID messages world stdout).processed = messages := by
  induction messages with
  | nil => intro world stdout; rfl
  | cons msg rest ih =>
    intro world stdout
    rcases hfetch : fetch slackToken channelID msg.Ts world with ⟨outcome, next⟩
    cases outcome with
    | error err => rw [threadLoop_error _ _ _ _ _ _ _ _ _ hfetch]; simp [ih]
    | ok replies => rw [threadLoop_ok _ _ _ _ _ _ _ _ _ hfetch]; simp [ih]

/-- The driver loop in a world where the reply fetches return the outcomes
paired with the messages: it prints the report of the threads after what was
printed before, and uses up the outcomes. -/
theorem threadLoop_scripted (slackToken channelID : String)
    (threads : List (Message × Except String (List Message))) :
    ∀ (stdout : String) (later : List (Except String (List Message))),
      (threadLoop scriptedReplies slackToken channelID (threads.map Prod.fst)
          (threads.map Prod.snd ++ later) stdout).stdout = stdout ++ report channelID threads ∧
      (threadLoop scriptedReplies slackToken channelID (threads.map Prod.fst)
          (threads.map Prod.snd ++ later) stdout).world = later := by
  induction threads with
  | nil =>
    intro stdout later
    simp [threadLoop, report]
  | cons t ts ih =>
    intro stdout later
    obtain ⟨msg, outcome⟩ := t
    cases outcome with
    | error err =>
      have hfetch : scriptedReplies slackToken channelID msg.Ts
          (((msg, Except.error err) :: ts).map Prod.snd ++ later) =
          (.error err, ts.map Prod.snd ++ later) := rfl
      rw [List.map_cons, threadLoop_error _ _ _ _ _ _ _ _ _ hfetch]
      obtain ⟨h1, h2⟩ := ih (stdout ++ warningLine msg err) later
      exact ⟨by simp only [h1, report, String.append_assoc], h2⟩
    | ok replies =>
      have hfetch : scriptedReplies slackToken channelID msg.Ts
          (((msg, Except.ok replies) :: ts).map Prod.snd ++ later) =
          (.ok replies, ts.map Prod.snd ++ later) := rfl
      rw [List.map_cons, threadLoop_ok _ _ _ _ _ _ _ _ _ hfetch]
      obtain ⟨h1, h2⟩ := ih (stdout ++ threadBlock channelID msg replies) later
      exact ⟨by simp only [h1, report, String.append_assoc], h2⟩

/-! ## Lemmas on the order of strings and on `sortSlice` -/

theorem charsLess_asymm (a : List Char) :
    ∀ b : List Char, charsLess a b = true → charsLess b a = false := by
  induction a with
  | nil => intro b; cases b <;> simp [charsLess]
  | cons x xs ih =>
    intro b
    cases b with
    | nil => simp [charsLess]
    | cons y ys =>
      simp only [charsLess]
      intro h
      by_cases h1 : x.toNat < y.toNat
      · have h2 : ¬ y.toNat < x.toNat := by omega
        simp [h1, h2]
      · by_cases h2 : y.toNat < x.toNat
        · simp [h1, h2] at h
        · simp only [h1, h2, if_false] at h ⊢
          exact ih ys h

theorem charsLess_negtrans (a : List Char) :
    ∀ b c : List Char, charsLess c a = true → charsLess b a = true ∨ charsLess c b = true := by
  induction a with
  | nil => intro b c; cases c <;> simp [charsLess]
  | cons x xs ih =>
    intro b c
    cases c with
    | nil =>
      cases b with
      | nil => simp [charsLess]
      | cons y ys => simp [charsLess]
    | cons z zs =>
      cases b with
      | nil => simp [charsLess]
      | cons y ys =>
        simp only [charsLess]
        intro h
        by_cases hzx : z.toNat < x.toNat
        · by_cases hyx : y.toNat < x.toNat
          · simp [hyx]
          · by_cases hzy : z.toNat < y.toNat
            · simp [hzy]
            · exfalso; omega
        · by_cases hxz : x.toNat < z.toNat
          · simp [hzx, hxz] at h
          · simp only [hzx, hxz, if_false] at h
            by_cases hyx : y.toNat < x.toNat
            · simp [hyx]
            · by_cases hzy : z.toNat < y.toNat
              · simp [hzy]
              · have hxy : ¬ x.toNat < y.toNat := by omega
                have hyz : ¬ y.toNat < z.toNat := by omega
                simp only [hyx, hxy, hzy, hyz, if_false]
                exact ih ys zs h

/-- The order `charsLess` is the lexicographic order of the library. -/
theorem charsLess_iff_lt (a : List Char) :
    ∀ b : List Char, charsLess a b = true ↔ a < b := by
  induction a with
  | nil =>
    intro b
    cases b with
    | nil => simp [charsLess]
    | cons y ys =>
      simp only [charsLess, true_iff]
      exact List.Lex.nil
  | cons x xs ih =>
    intro b
    cases b with
    | nil =>
      simp only [charsLess, Bool.false_eq_true, false_iff]
      intro h
      cases h
    | cons y ys =>
      simp only [charsLess]
      by_cases h1 : x.toNat < y.toNat
      · simp only [h1, if_true, true_iff]
        exact List.Lex.rel h1
      · by_cases h2 : y.toNat < x.toNat
        · simp only [h1, h2, if_false, if_true, Bool.false_eq_true, false_iff]
          intro h
          cases h with
          | cons h => exact absurd h2 (Nat.lt_irrefl _)
          | rel h => exact h1 h
        · simp only [h1, h2, if_false]
          have hxy : x = y := le_antisymm (not_lt.1 h2) (not_lt.1 h1)
          subst hxy
          rw [ih ys]
          constructor
          · intro h
            exact List.Lex.cons h
          · intro h
            cases h with
            | cons h => exact h
            | rel h => exact absurd h h1

/-- Go's `s < t` in the model is the order of `String`. -/
theorem stringLess_iff_lt (s t : String) : stringLess s t = true ↔ s < t :=
  (charsLess_iff_lt s.data t.data).trans String.lt_iff_toList_lt.symm

theorem insertSlice_perm {α : Type} (less : α → α → Bool) (x : α) (l : List α) :
    (insertSlice less x l).Perm (x :: l) := by
  induction l with
  | nil => exact List.Perm.refl _
  | cons y ys ih =>
    by_cases h : less x y = true
    · simp [insertSlice, h]
    · simp only [insertSlice, h, if_false]
      exact (List.Perm.cons y ih).trans (List.Perm.swap x y ys)

theorem sortSlice_perm {α : Type} (less : α → α → Bool) (l : List α) :
    (sortSlice less l).Perm l := by
  induction l with
  | nil => exact List.Perm.refl _
  | cons x xs ih => exact (insertSlice_perm less x _).trans (List.Perm.cons x ih)

theorem insertSlice_sorted {α : Type} (less : α → α → Bool)
    (hasymm : ∀ x y, less x y = true → less y x = false)
    (hneg : ∀ x y z, less z x = true → less y x = true ∨ less z y = true)
    (x : α) (l : List α) (hl : l.Pairwise (fun a b => less b a = false)) :
    (insertSlice less x l).Pairwise (fun a b => less b a = false) := by
  induction l with
  | nil => simp [insertSlice]
  | cons y ys ih =>
    rw [List.pairwise_cons] at hl
    by_cases h : less x y = true
    · simp only [insertSlice, h, if_true]
      refine List.Pairwise.cons ?_ (List.Pairwise.cons hl.1 hl.2)
      intro w hw
      rcases List.mem_cons.1 hw with rfl | hw
      · exact hasymm _ _ h
      · by_contra hc
        have hc' : less w x = true := by simpa using hc
        rcases hneg x y w hc' with h1 | h1
        · rw [hasymm _ _ h] at h1
          exact Bool.noConfusion h1
        · rw [hl.1 w hw] at h1
          exact Bool.noConfusion h1
    · simp only [insertSlice, h, if_false]
      refine List.Pairwise.cons ?_ (ih hl.2)
      intro w hw
      rcases List.mem_cons.1 ((insertSlice_perm less x ys).mem_iff.1 hw) with rfl | hw
      · simpa using h
      · exact hl.1 w hw

theorem sortSlice_sorted {α : Type} (less : α → α → Bool)
    (hasymm : ∀ x y, less x y = true → less y x = false)
    (hneg : ∀ x y z, less z x = true → less y x = true ∨ less z y = true)
    (l : List α) : (sortSlice less l).Pairwise (fun a b => less b a = false) := by
  induction l with
  | nil => exact List.Pairwise.nil
  | cons x xs ih => exact insertSlice_sorted less hasymm hneg x _ ih

/-- The slice sorted by `main`: a permutation in ascending order of `Ts`. -/
theorem sortSlice_messages (messages : List Message) :
    (sortSlice (fun a b => stringLess a.Ts b.Ts) messages).Perm messages ∧
    (sortSlice (fun a b => stringLess a.Ts b.Ts) messages).Pairwise
      (fun a b => stringLess b.Ts a.Ts = false) :=
  ⟨sortSlice_perm _ _,
    sortSlice_sorted (fun a b : Message => stringLess a.Ts b.Ts)
      (fun _ _ h => charsLess_asymm _ _ h)
      (fun _ _ _ h => charsLess_negtrans _ _ _ h) messages⟩

theorem threadLoop_exitCode {σ : Type} (fetch : String → String → String → Collector σ)
    (slackToken channelID : String) (messages : List Message) :
    ∀ (world : σ) (stdout : String),
      (threadLoop fetch slackToken channelID messages world stdout).exitCode = 0 := by
  induction messages with
  | nil => intro world stdout; rfl
  | cons msg rest ih =>
    intro world stdout
    rcases hfetch : fetch slackToken channelID msg.Ts world with ⟨outcome, next⟩
    cases outcome with
    | error err => rw [threadLoop_error _ _ _ _ _ _ _ _ _ hfetch]; simp [ih]
    | ok replies => rw [threadLoop_ok _ _ _ _ _ _ _ _ _ hfetch]; simp [ih]

theorem report_append (channelID : String)
    (before after : List (Message × Except String (List Message))) :
    report channelID (before ++ after) = report channelID before ++ report channelID after := by
  induction before with
  | nil => simp [report]
  | cons t ts ih =>
    obtain ⟨msg, outcome⟩ := t
    cases outcome <;> simp [report, ih, String.append_assoc]

theorem report_filter_fetched (channelID : String)
    (threads : List (Message × Except String (List Message))) :
    report channelID (threads.filter fetched) = blocks channelID threads := by
  induction threads with
  | nil => rfl
  | cons t ts ih =>
    obtain ⟨msg, outcome⟩ := t
    cases outcome <;> simp [report, blocks, fetched, List.filter_cons, ih]

theorem runThreads_stdout (slackToken channelID : String)
    (threads : List (Message × Except String (List Message))) :
    (runThreads slackToken channelID threads).stdout = report channelID threads := by
  have h := (threadLoop_scripted slackToken channelID threads "" []).1
  simpa [runThreads] using h

theorem messageLines_mem (replies : List Message) (r : Message) (hr : r ∈ replies) :
    ∃ before after : String,
      messageLines replies = before ++ ("## Message\n" ++ r.Text ++ "\n") ++ after := by
  induction replies with
  | nil => simp at hr
  | cons x xs ih =>
    rcases List.mem_cons.1 hr with rfl | hmem
    · exact ⟨"", messageLines xs, by simp [messageLines]⟩
    · obtain ⟨before, after, h⟩ := ih hmem
      refine ⟨"## Message\n" ++ x.Text ++ "\n" ++ before, after, ?_⟩
      simp only [messageLines, h, String.append_assoc]

/-! ## The driver: claims C6 to C9 -/

/-- C6: for every list of top-level messages the collector returns, the
driver fetches the threads in an order that is a permutation of that list
and ascending by the string comparison of `Ts` (for consecutive messages
`a`, `b`: not `b.Ts < a.Ts`; for any earlier `a` and later `b`:
`a.Ts ≤ b.Ts`); with
reply fetches that return given outcomes, the output is the report of the
sorted messages, so the thread blocks appear in ascending order of their
root timestamp. -/
theorem main_processes_threads_in_order {σ : Type}
    (fetchTop : String → String → Int → Collector σ)
    (fetchReplies : String → String → String → Collector σ)
    (fetchLimit : Int) (slackToken channelID : String) (world next : σ)
    (messages : List Message)
    (outcomes : List (Except String (List Message)))
    (hfetch : fetchTop slackToken channelID fetchLimit world = (.ok messages, next))
    (hlen : outcomes.length = messages.length) :
    (mainBody fetchTop fetchReplies fetchLimit slackToken channelID world).processed.Perm
      messages ∧
    (mainBody fetchTop fetchReplies fetchLimit slackToken channelID world).processed.Chain'
      (fun a b => ¬ b.Ts < a.Ts) ∧
    (mainBody fetchTop fetchReplies fetchLimit slackToken channelID world).processed.Pairwise
      (fun a b => a.Ts ≤ b.Ts) ∧
    (mainBody (constantTopLevel messages) scriptedReplies fetchLimit slackToken channelID
        outcomes).stdout =
      report channelID
        ((mainBody fetchTop fetchReplies fetchLimit slackToken channelID world).processed.zip
          outcomes) := by
  have hproc : (mainBody fetchTop fetchReplies fetchLimit slackToken channelID world).processed
      = sortSlice (fun a b => stringLess a.Ts b.Ts) messages := by
    simp only [mainBody, hfetch]
    exact threadLoop_processed _ _ _ _ _ _
  obtain ⟨hperm, hsorted⟩ := sortSlice_messages messages
  have hpair : (sortSlice (fun a b => stringLess a.Ts b.Ts) messages).Pairwise
      (fun a b => ¬ b.Ts < a.Ts) :=
    hsorted.imp (fun h hlt => by
      rw [(stringLess_iff_lt _ _).2 hlt] at h
      exact Bool.noConfusion h)
  rw [hproc]
  refine ⟨hperm, List.Pairwise.chain' hpair, hpair.imp (fun h => not_lt.1 h), ?_⟩
  have hlen' : outcomes.length = (sortSlice (fun a b => stringLess a.Ts b.Ts) messages).length := by
    rw [hlen, hperm.length_eq]
  have h := (threadLoop_scripted slackToken channelID
    ((sortSlice (fun a b => stringLess a.Ts b.Ts) messages).zip outcomes) "" []).1
  rw [List.map_fst_zip _ _ (le_of_eq hlen'.symm), List.map_snd_zip _ _ (le_of_eq hlen')] at h
  simpa [mainBody, constantTopLevel] using h

/-- A run of C6: three messages out of order, the reply fetch of the second
thread in timestamp order fails. -/
theorem main_processes_threads_in_order_witness :
    (mainBody (constantTopLevel [sampleReply, sampleRoot, samplePlain]) scriptedReplies 1
        "xoxb" "C123" (sampleThreads.map Prod.snd)).processed.Perm
      [sampleReply, sampleRoot, samplePlain] ∧
    (mainBody (constantTopLevel [sampleReply, sampleRoot, samplePlain]) scriptedReplies 1
        "xoxb" "C123" (sampleThreads.map Prod.snd)).processed =
      [sampleRoot, samplePlain, sampleReply] :=
  ⟨(main_processes_threads_in_order (constantTopLevel [sampleReply, sampleRoot, samplePlain])
      scriptedReplies 1 "xoxb" "C123" (sampleThreads.map Prod.snd)
      (sampleThreads.map Prod.snd) [sampleReply, sampleRoot, samplePlain]
      (sampleThreads.map Prod.snd) rfl (by decide)).1,
    by decide⟩

/-- C7: for every channel id and timestamp, the permalink line the driver
prints is `https://slack.com/archives/`, the channel id as it is, `/p`, and
`formatSlackTs` of the timestamp, which is the timestamp without its decimal
points; channel `C123` and timestamp `1690000000.000100` give an address
ending in `/C123/p1690000000000100`. -/
theorem permalink_of_thread (channelID ts : String) :
    Sprintf (baseThreadURL ++ "\n") [channelID, formatSlackTs ts] =
      "https://slack.com/archives/" ++ channelID ++ "/p" ++ formatSlackTs ts ++ "\n" ∧
    (formatSlackTs ts).data = ts.data.filter (fun c => decide (c ≠ '.')) ∧
    (∀ msg : Message, msg.Ts = ts →
      printThread channelID msg [] "" =
        "# Thread\n" ++
          ("https://slack.com/archives/" ++ channelID ++ "/p" ++ formatSlackTs ts) ++ "\n") ∧
    Sprintf baseThreadURL ["C123", formatSlackTs "1690000000.000100"] =
      "https://slack.com/archives" ++ "/C123/p1690000000000100" := by
  refine ⟨Sprintf_baseThreadURL _ _, ?_, ?_, by decide⟩
  · rw [formatSlackTs_eq]
    rfl
  · intro msg hts
    subst hts
    rw [printThread_eq, formatSlackTs_eq]
    apply String.ext
    simp [threadBlock, permalink, messageLines, String.data_append]

/-- C8: for a top-level message whose reply fetch succeeds with replies
`rs`, the driver prints for that thread exactly the line `# Thread`, the
permalink line, and for each reply of `rs`, in the order of `rs`, the line
`## Message` and a line with the reply's text as it is; no reply is skipped,
the thread's root among them. -/
theorem thread_block_is_printed {σ : Type}
    (fetchReplies : String → String → String → Collector σ) (slackToken channelID : String)
    (msg : Message) (rest : List Message) (world next : σ) (stdout : String)
    (rs : List Message)
    (hfetch : fetchReplies slackToken channelID msg.Ts world = (.ok rs, next)) :
    (threadLoop fetchReplies slackToken channelID [msg] world "").stdout =
      "# Thread\n" ++ permalink channelID msg.Ts ++ "\n" ++ messageLines rs ∧
    (threadLoop fetchReplies slackToken channelID (msg :: rest) world stdout).stdout =
      (threadLoop fetchReplies slackToken channelID rest next
        (stdout ++ ("# Thread\n" ++ permalink channelID msg.Ts ++ "\n" ++
          messageLines rs))).stdout ∧
    (∀ r ∈ rs, ∃ before after : String,
      messageLines rs = before ++ ("## Message\n" ++ r.Text ++ "\n") ++ after) ∧
    (∀ (root : Message) (tail : List Message), rs = root :: tail →
      messageLines rs = "## Message\n" ++ root.Text ++ "\n" ++ messageLines tail) := by
  refine ⟨?_, ?_, fun r hr => messageLines_mem rs r hr, ?_⟩
  · rw [threadLoop_ok _ _ _ _ _ _ _ _ _ hfetch]
    simp [threadLoop, threadBlock]
  · rw [threadLoop_ok _ _ _ _ _ _ _ _ _ hfetch]
    rfl
  · intro root tail h
    subst h
    rfl

/-- A run of C8: the thread of `sampleRoot` with two replies, the root
first. -/
theorem thread_block_is_printed_witness :
    (threadLoop scriptedReplies "xoxb" "C123" [sampleRoot]
        [.ok [sampleRoot, sampleReply]] "").stdout =
      "# Thread\nhttps://slack.com/archives/C123/p1690000000000100\n" ++
        "## Message\nroot\n## Message\nreply\n" :=
  (thread_block_is_printed scriptedReplies "xoxb" "C123" sampleRoot [] [.ok [sampleRoot, sampleReply]]
    [] "" [sampleRoot, sampleReply] rfl).1.trans (by decide)

/-- C9: for every list of top-level messages and every outcome of each
thread's reply fetch, the driver fetches every thread in order and runs to
the end with status 0; a thread whose fetch fails contributes only its
warning line, and every thread whose fetch succeeds contributes its full
block: the output is what the driver prints for the threads before the
failing one, the warning line, and what it prints for the threads after it;
leaving the failing thread out removes nothing but that line, and leaving
all failing threads out leaves the blocks of the others. -/
theorem failed_thread_fetch_is_skipped (slackToken channelID : String)
    (threads : List (Message × Except String (List Message))) :
    (runThreads slackToken channelID threads).processed = threads.map Prod.fst ∧
    (runThreads slackToken channelID threads).exitCode = 0 ∧
    (runThreads slackToken channelID threads).stdout = report channelID threads ∧
    (runThreads slackToken channelID (threads.filter fetched)).stdout =
      blocks channelID threads ∧
    (∀ before after msg err, threads = before ++ (msg, .error err) :: after →
      (runThreads slackToken channelID threads).stdout =
        (runThreads slackToken channelID before).stdout ++ warningLine msg err ++
          (runThreads slackToken channelID after).stdout ∧
      (runThreads slackToken channelID (before ++ after)).stdout =
        (runThreads slackToken channelID before).stdout ++
          (runThreads slackToken channelID after).stdout) := by
  refine ⟨threadLoop_processed _ _ _ _ _ _, threadLoop_exitCode _ _ _ _ _ _,
    runThreads_stdout _ _ _,
    (runThreads_stdout _ _ _).trans (report_filter_fetched _ _), ?_⟩
  intro before after msg err h
  subst h
  simp only [runThreads_stdout, report_append, report, String.append_assoc, and_self]

end SlackExporter
